import Mathlib

/-!
Verification development for the auto-seller core in
`src/library/good_option_hoping.py` (options-only protective SELL manager).

Machine arithmetic is modelled over ℚ (exact rationals), Python's `round`
as round-half-to-even, timestamps as rational epoch seconds, and the
external broker order store as the list of live open orders for one
instrument, updated to reflect exactly the engine's placements and
cancellations (the accuracy assumption stated by the spec).
-/

namespace AutoSeller

/-- Configuration constant `OPENALGO_OPTION_PRODUCTS` (default "NRML,MIS"),
line 57. -/
def OPTION_PRODUCTS : List String := ["NRML", "MIS"]

/-- Configuration constant `OPENALGO_OPTION_TICK` (default 0.05), line 60. -/
def TICK_SIZE_OPT : ℚ := 1 / 20

/-- Configuration constant `AUTO_SELL_MARGIN_OPT` (default 0.25), line 61. -/
def AUTO_SELL_MARGIN_OPT : ℚ := 1 / 4

/-- Configuration constant `USE_EXECUTIONS` (default enabled), line 63. -/
def USE_EXECUTIONS : Bool := true

/-- Configuration constant `DEFER_ON_START_SEC` (default 2.0), line 64. -/
def DEFER_ON_START_SEC : ℚ := 2

/-- Configuration constant `LEDGER_USE_SYNTHETIC_BOOTSTRAP` (default enabled),
line 66. -/
def LEDGER_USE_SYNTHETIC_BOOTSTRAP : Bool := true

/-- `MAX_EXEC_ID_CACHE = 10000`, line 144. -/
def MAX_EXEC_ID_CACHE : ℕ := 10000

/-- Python's built-in `round` to an integer: nearest integer, ties to the
even integer (banker's rounding). Used by `round_to_tick`, line 86. -/
def pyRound (x : ℚ) : ℤ :=
  let f := ⌊x⌋
  let r := x - f
  if r < 1 / 2 then f
  else if 1 / 2 < r then f + 1
  else if f % 2 = 0 then f else f + 1

/-- Python's two-argument `round(x, 2)`: round to two decimal places,
ties to even. -/
def pyRound2 (x : ℚ) : ℚ := (pyRound (x * 100) : ℚ) / 100

/-- `round_to_tick(price, tick) = round(round(price / tick) * tick, 2)`,
lines 85-86. -/
def round_to_tick (price tick : ℚ) : ℚ :=
  pyRound2 ((pyRound (price / tick) : ℚ) * tick)

/-- Modelled from the spec (§4.5 wording): "half-up rounding" to the nearest
tick. Stated only to compare with the source's `round_to_tick`. -/
def roundHalfUp (x : ℚ) : ℤ := ⌊x + 1 / 2⌋

/-- Modelled from the spec (§4.5 wording): target-price rounding with half-up
rounding to the nearest tick, to two decimals. Comparison definition only. -/
def round_to_tick_halfup (price tick : ℚ) : ℚ :=
  ((roundHalfUp (((roundHalfUp (price / tick) : ℚ) * tick) * 100) : ℚ)) / 100

/-- `weighted_avg(pairs)`, lines 88-91: quantity-weighted average price of
(qty, avg) pairs, 0 when total quantity is not positive. -/
def weighted_avg (pairs : List (ℚ × ℚ)) : ℚ :=
  let num := (pairs.map (fun p => p.1 * p.2)).sum
  let den := (pairs.map Prod.fst).sum
  if den > 0 then num / den else 0

/-- Execution side; the normalizer only retains BUY/SELL rows
(lines 302-303). -/
inductive Side where
  | buy
  | sell
  deriving DecidableEq, Repr

/-- A normalized execution record (lines 320-323): the rows produced by
`fetch_executions_lookback`. Times are rational epoch seconds; execution
ids are modelled as natural numbers (`none` = id absent). -/
structure ExecRec where
  time : ℚ
  side : Side
  qty : ℚ
  price : ℚ
  symbol : String
  exchange : String
  product : String
  exec_id : Option ℕ
  deriving DecidableEq, Repr

/-- The per-record filter of `fifo_ledger_avg` (line 408): the record must
match the instrument and carry an in-scope product. -/
def execMatch (exchange symbol : String) (r : ExecRec) : Bool :=
  r.exchange == exchange && r.symbol == symbol && OPTION_PRODUCTS.contains r.product

/-- The inner SELL `while` loop shared verbatim by `fifo_ledger_avg`
(lines 413-422) and the supervisor's inline session mini-ledger
(lines 565-574): consume oldest lots first; a sell that exceeds the queue
drains it to empty. -/
def sellConsume (sell_qty : ℚ) (queue : List (ℚ × ℚ)) : List (ℚ × ℚ) :=
  match queue with
  | [] => []
  | (lot_qty, lot_price) :: rest =>
    if sell_qty ≤ 0 then (lot_qty, lot_price) :: rest
    else if lot_qty ≤ sell_qty then sellConsume (sell_qty - lot_qty) rest
    else (lot_qty - sell_qty, lot_price) :: rest

/-- One execution applied to the lot queue: BUY appends a lot at the back,
SELL consumes from the front (lines 410-422 and 562-574). -/
def fifoStep (queue : List (ℚ × ℚ)) (r : ExecRec) : List (ℚ × ℚ) :=
  match r.side with
  | Side.buy => queue ++ [(r.qty, r.price)]
  | Side.sell => sellConsume r.qty queue

/-- The FIFO loop over a sequence of executions. -/
def fifoQueue (queue0 : List (ℚ × ℚ)) (l : List ExecRec) : List (ℚ × ℚ) :=
  l.foldl fifoStep queue0

/-- Total open quantity held in a lot queue. -/
def queueTotal (queue : List (ℚ × ℚ)) : ℚ := (queue.map Prod.fst).sum

/-- `fifo_ledger_avg(execs, exchange, symbol, opening_qty, opening_avg)`,
lines 397-427: seed an optional synthetic opening lot, process the matching
executions in order, and return (open_qty, open_avg or none). -/
def fifo_ledger_avg (execs : List ExecRec) (exchange symbol : String)
    (opening_qty opening_avg : ℚ) : ℚ × Option ℚ :=
  let queue0 : List (ℚ × ℚ) :=
    if LEDGER_USE_SYNTHETIC_BOOTSTRAP = true ∧ opening_qty > 0 ∧ opening_avg > 0 then
      [(opening_qty, opening_avg)]
    else []
  let queue := fifoQueue queue0 (execs.filter (execMatch exchange symbol))
  let open_qty := queueTotal queue
  (open_qty, if open_qty > 0 then some (weighted_avg queue) else none)

/-- The supervisor's inline session mini-ledger, lines 554-580: the same FIFO
matching applied to the executions of this instrument with
`time ≥ session_start`, never seeded. Returns (session open qty,
session avg or none). -/
def session_mini_ledger (execs : List ExecRec) (exch sym : String)
    (session_start : ℚ) : ℚ × Option ℚ :=
  let sess_execs := execs.filter
    (fun r => execMatch exch sym r && decide (session_start ≤ r.time))
  let queue := fifoQueue [] sess_execs
  let sess_open_qty := queueTotal queue
  (sess_open_qty, if sess_open_qty > 0 then some (weighted_avg queue) else none)

/-- The source the decision engine attributes the chosen average to
(lines 588-609). `sessionLow` is the source logged as "Session-Partial". -/
inductive CostSource where
  | session
  | sessionLow
  | ledger
  | positionUnsafe
  deriving DecidableEq, Repr

/-- The costing selection of the supervisor, lines 583-610 (§4.5):
priority Session / Ledger / Session-Partial / Ledger / defer (`none`) /
Position-UNSAFE. `has_session` is `st.session_start is not None`;
`elapsed` is `now - session_start` in seconds. -/
def choose_avg (session_avg : Option ℚ) (session_buy_qty qty ledger_open_qty : ℚ)
    (ledger_open_avg : Option ℚ) (pos_avg : ℚ) (has_session : Bool)
    (elapsed : ℚ) : Option (CostSource × ℚ) :=
  if session_avg.isSome = true ∧ session_buy_qty > 0 then
    let sa := session_avg.getD 0
    let coverage_ratio := if qty > 0 then session_buy_qty / qty else 0
    if coverage_ratio ≥ 95 / 100 then some (CostSource.session, sa)
    else if ledger_open_avg.isSome = true ∧ ledger_open_qty ≥ qty * (95 / 100) then
      some (CostSource.ledger, ledger_open_avg.getD 0)
    else some (CostSource.sessionLow, sa)
  else if ledger_open_avg.isSome = true ∧ ledger_open_qty ≥ qty * (95 / 100) then
    some (CostSource.ledger, ledger_open_avg.getD 0)
  else if USE_EXECUTIONS = true ∧ has_session = true ∧ elapsed < DEFER_ON_START_SEC then
    none
  else some (CostSource.positionUnsafe, pos_avg)

/-- Modelled from the spec: §4.5's six-branch selection policy, written from
the spec's words, to compare with the source's `choose_avg`.
1. session average exists and `session_buy_qty / quantity ≥ 0.95` → Session;
2. else (session exists) ledger covers ≥ 95% → Ledger;
3. else (session exists) → Session-Partial;
4. else (no session average) ledger covers ≥ 95% → Ledger;
5. else within the defer window since session start → defer;
6. else → broker position average, Position-UNSAFE. -/
def choose_avg_spec (session_avg : Option ℚ) (session_buy_qty qty ledger_open_qty : ℚ)
    (ledger_open_avg : Option ℚ) (pos_avg : ℚ) (elapsed : ℚ) :
    Option (CostSource × ℚ) :=
  match session_avg with
  | some sa =>
    if session_buy_qty / qty ≥ 95 / 100 then some (CostSource.session, sa)
    else if ledger_open_qty ≥ qty * (95 / 100) then
      some (CostSource.ledger, ledger_open_avg.getD 0)
    else some (CostSource.sessionLow, sa)
  | none =>
    if ledger_open_qty ≥ qty * (95 / 100) then
      some (CostSource.ledger, ledger_open_avg.getD 0)
    else if elapsed < DEFER_ON_START_SEC then none
    else some (CostSource.positionUnsafe, pos_avg)

/-- Per-instrument tracking record, class `SymbolState`, lines 98-126.
`last_exec_id` is never read by the decision logic and is omitted. -/
structure SymbolState where
  symbol : String
  exchange : String
  total_qty : ℚ := 0
  avg_price : ℚ := 0
  open_sell_id : Option String := none
  open_sell_px : Option ℚ := none
  open_sell_qty : Option ℚ := none
  tracking : Bool := false
  manual_override : Bool := false
  armed : Bool := false
  session_id : ℕ := 0
  session_start : Option ℚ := none
  session_buy_qty : ℚ := 0
  session_buy_value : ℚ := 0
  session_populated : Bool := false
  deriving DecidableEq, Repr

/-- `SymbolState.__init__`, lines 99-117. -/
def SymbolState.init (symbol exchange : String) : SymbolState :=
  { symbol := symbol, exchange := exchange }

/-- A live order of the external order store for one instrument, with the
fields the supervisor reads (lines 621-625): action, quantity, price,
order id, status. -/
structure Order where
  action : String
  quantity : ℚ
  price : ℚ
  orderid : String
  status : String
  deriving DecidableEq, Repr

/-- An order action issued to the broker during one cycle. `place` is a
successful `placeorder` call (with the id the broker returned, possibly
absent from its response), `placeRaise` a `placeorder` call that raised,
`cancel` a `cancelorder` call. -/
inductive Action where
  | place (oid : Option String) (qty px : ℚ)
  | placeRaise (qty px : ℚ)
  | cancel (oid : String)
  deriving DecidableEq, Repr

/-- Whether an action is a cancellation (no order placement). -/
def Action.isCancel : Action → Bool
  | Action.cancel _ => true
  | _ => false

/-- The order states `cancel_existing_sells` is willing to cancel,
line 437. -/
def openish (status : String) : Bool :=
  status == "open" || status == "pending" || status == "trigger_pending"

/-- A SELL order in a cancellable (live) state, lines 433-437. -/
def is_live_sell (o : Order) : Bool := o.action == "SELL" && openish o.status

/-- `cancel_existing_sells`, lines 431-445, restricted to the given
instrument's snapshot list: every live SELL is cancelled (removed from the
store, one cancel action each); other orders are left. -/
def cancel_existing_sells (orders : List Order) : List Order × List Action :=
  (orders.filter (fun o => !(is_live_sell o)),
   (orders.filter is_live_sell).map (fun o => Action.cancel o.orderid))

/-- `ensure_one_sell(exchange, symbol, qty, avg_price)`, lines 448-472.
`resp` models the broker `placeorder` outcome: `none` = the call raised,
`some oid?` = it returned, with `oid?` the id extracted from the response.
Returns the (order id, price, qty) triple the caller stores, plus the
broker calls made. -/
def ensure_one_sell (qty avg_price : ℚ) (resp : Option (Option String)) :
    (Option String × Option ℚ × Option ℚ) × List Action :=
  if qty ≤ 0 then ((none, none, none), [])
  else
    let px := round_to_tick (avg_price + AUTO_SELL_MARGIN_OPT) TICK_SIZE_OPT
    match resp with
    | none => ((none, none, none), [Action.placeRaise qty px])
    | some oid? => ((oid?, some px, some qty), [Action.place oid? qty px])

/-- World model of the accurate external order store (the spec's assumption):
a successful `placeorder` call adds exactly one live SELL at the placed
quantity and price; a raised call adds nothing. -/
def placed_orders (qty avg_price : ℚ) (resp : Option (Option String)) : List Order :=
  if qty ≤ 0 then []
  else
    match resp with
    | none => []
    | some oid? =>
      [{ action := "SELL"
         quantity := qty
         price := round_to_tick (avg_price + AUTO_SELL_MARGIN_OPT) TICK_SIZE_OPT
         orderid := oid?.getD ""
         status := "open" }]

/-- Lines 531-610 of `supervisor` for one instrument with positive quantity:
start tracking / re-arm, run the ledger engine (lines 543-550) and the
session mini-ledger (lines 552-580), update the state, and select the cost
source (lines 583-610). Returns the updated state and the choice
(`none` = defer, no action this cycle). -/
def decide_choice (execs : List ExecRec) (exch sym : String)
    (qty pos_avg prev_qty now : ℚ) (st : SymbolState) :
    SymbolState × Option (CostSource × ℚ) :=
  let st1 := if st.tracking then st else
    { st with
      tracking := true
      session_id := st.session_id + 1
      session_start := some now
      session_buy_qty := 0
      session_buy_value := 0
      armed := true
      session_populated := false }
  let st2 := if qty > prev_qty then { st1 with armed := true } else st1
  let lp : ℚ × Option ℚ :=
    if USE_EXECUTIONS then
      fifo_ledger_avg execs exch sym
        (match st2.session_start with | none => qty | some _ => 0)
        (match st2.session_start with | none => pos_avg | some _ => 0)
    else (0, none)
  let sp : ℚ × Option ℚ :=
    match st2.session_start with
    | some t0 => if USE_EXECUTIONS then session_mini_ledger execs exch sym t0 else (0, none)
    | none => (0, none)
  let st3 := if sp.2.isSome then
      { st2 with session_buy_qty := sp.1, session_populated := true }
    else st2
  (st3, choose_avg sp.2 st3.session_buy_qty qty lp.1 lp.2 pos_avg
    st3.session_start.isSome (now - st3.session_start.getD 0))

/-- Result of one supervisor cycle for one instrument: the new tracking
state, the (accurately reflected) order store, the broker calls made, and
the `last_qty` recorded for the instrument. -/
structure StepOut where
  st : SymbolState
  orders : List Order
  acts : List Action
  last_qty : ℚ
  deriving DecidableEq, Repr

/-- One `supervisor` cycle for one instrument, lines 516-654: the flat
branch (517-529), tracking/engines/selection (`decide_choice`), the defer
branch (603-606), and order reconciliation (616-654). `orders` is the open
(live) order snapshot for this instrument, which by the accuracy
assumption equals the external store. -/
def supervisor_step (execs : List ExecRec) (exch sym : String)
    (qty pos_avg prev_qty now : ℚ) (st : SymbolState) (orders : List Order)
    (resp : Option (Option String)) : StepOut :=
  if qty ≤ 0 then
    if st.tracking then
      let co := cancel_existing_sells orders
      { st := { st with
          total_qty := 0
          avg_price := 0
          open_sell_id := none
          open_sell_px := none
          open_sell_qty := none
          manual_override := false
          tracking := false
          session_start := none
          session_buy_qty := 0
          session_buy_value := 0
          armed := false }
        orders := co.1
        acts := co.2
        last_qty := 0 }
    else
      { st := { st with total_qty := 0, avg_price := 0 }
        orders := orders
        acts := []
        last_qty := 0 }
  else
    let dc := decide_choice execs exch sym qty pos_avg prev_qty now st
    match dc.2 with
    | none => { st := dc.1, orders := orders, acts := [], last_qty := qty }
    | some (_, chosen) =>
      let st4 := { dc.1 with total_qty := qty, avg_price := chosen }
      let target_px := round_to_tick (chosen + AUTO_SELL_MARGIN_OPT) TICK_SIZE_OPT
      match orders.find? (fun o => o.action == "SELL" && decide (o.quantity = qty)) with
      | some o =>
        let matched : Bool := decide (|o.price - target_px| < 1 / 1000000)
        { st := { st4 with
            open_sell_id := some o.orderid
            open_sell_px := some o.price
            open_sell_qty := some qty
            manual_override := !matched
            armed := false }
          orders := orders
          acts := []
          last_qty := qty }
      | none =>
        if st4.armed then
          let eo := ensure_one_sell qty chosen resp
          { st := { st4 with
              open_sell_id := eo.1.1
              open_sell_px := eo.1.2.1
              open_sell_qty := eo.1.2.2
              armed := false }
            orders := orders ++ placed_orders qty chosen resp
            acts := eo.2
            last_qty := qty }
        else
          let co := cancel_existing_sells orders
          let eo := ensure_one_sell qty chosen resp
          { st := { st4 with
              open_sell_id := eo.1.1
              open_sell_px := eo.1.2.1
              open_sell_qty := eo.1.2.2 }
            orders := co.1 ++ placed_orders qty chosen resp
            acts := co.2 ++ eo.2
            last_qty := qty }

/-- The per-cycle inputs seen by the supervisor for one instrument: the
fetched executions, the broker-reported net quantity and positive-leg
average, the cycle time, and the `placeorder` outcome were one attempted. -/
structure CycleIn where
  execs : List ExecRec
  qty : ℚ
  pos_avg : ℚ
  now : ℚ
  resp : Option (Option String)
  deriving DecidableEq, Repr

/-- A sequence of supervisor cycles for one instrument, threading the
tracking state, the accurate order store and `last_qty`, and accumulating
the broker calls. -/
def runCycles (exch sym : String) : List CycleIn → SymbolState → List Order → ℚ → StepOut
  | [], st, orders, prev => { st := st, orders := orders, acts := [], last_qty := prev }
  | c :: rest, st, orders, prev =>
    let out := supervisor_step c.execs exch sym c.qty c.pos_avg prev c.now st orders c.resp
    let tail := runCycles exch sym rest out.st out.orders out.last_qty
    { st := tail.st
      orders := tail.orders
      acts := out.acts ++ tail.acts
      last_qty := tail.last_qty }

/-- The execution-id dedup stage of `fetch_executions_lookback`,
lines 312-318, applied to the rows that reached it: a row whose id is
already cached is dropped; otherwise its id (when present) is cached, and
the whole cache is cleared once its size exceeds `MAX_EXEC_ID_CACHE`.
Returns (final cache, kept rows, number of full clears). -/
def dedupRun (cache : Finset ℕ) : List ExecRec → Finset ℕ × List ExecRec × ℕ
  | [] => (cache, [], 0)
  | r :: rest =>
    match r.exec_id with
    | none =>
      let t := dedupRun cache rest
      (t.1, r :: t.2.1, t.2.2)
    | some i =>
      if i ∈ cache then dedupRun cache rest
      else
        let c1 := insert i cache
        if MAX_EXEC_ID_CACHE < c1.card then
          let t := dedupRun ∅ rest
          (t.1, r :: t.2.1, t.2.2 + 1)
        else
          let t := dedupRun c1 rest
          (t.1, r :: t.2.1, t.2.2)

/-- Total BUY quantity of a sequence of executions. -/
def buyQtyTotal : List ExecRec → ℚ
  | [] => 0
  | r :: rest => (if r.side = Side.buy then r.qty else 0) + buyQtyTotal rest

/-- Total SELL quantity of a sequence of executions. -/
def sellQtyTotal : List ExecRec → ℚ
  | [] => 0
  | r :: rest => (if r.side = Side.sell then r.qty else 0) + sellQtyTotal rest

/-- The quantity of the synthetic opening lot actually seeded by
`fifo_ledger_avg` (lines 402-404). -/
def seedQty (opening_qty opening_avg : ℚ) : ℚ :=
  if LEDGER_USE_SYNTHETIC_BOOTSTRAP = true ∧ opening_qty > 0 ∧ opening_avg > 0 then
    opening_qty
  else 0

/-- Starting from open quantity `t`, every SELL in the sequence consumes no
more than the quantity then available (no FIFO over-drain). -/
def noOverdrain (t : ℚ) : List ExecRec → Bool
  | [] => true
  | r :: rest =>
    match r.side with
    | Side.buy => noOverdrain (t + r.qty) rest
    | Side.sell => decide (r.qty ≤ t) && noOverdrain (t - r.qty) rest

/-- All lots in a queue have positive quantity. -/
def LotsPos (queue : List (ℚ × ℚ)) : Prop := ∀ p ∈ queue, 0 < p.1

/-- The time-ascending comparison `fetch_executions_lookback` sorts by,
line 327. -/
def timeLE (a b : ExecRec) : Prop := a.time ≤ b.time

instance : DecidableRel timeLE := fun a b =>
  inferInstanceAs (Decidable (a.time ≤ b.time))

instance : IsTotal ExecRec timeLE := ⟨fun a b => le_total a.time b.time⟩

instance : IsTrans ExecRec timeLE := ⟨fun _ _ _ h h2 => le_trans h h2⟩

/-- The stable ascending-by-time sort applied to the normalized rows,
line 327 (`normed.sort(key=lambda x: x["time"])`; Python's sort is stable,
as is insertion sort). -/
def sortExecs (l : List ExecRec) : List ExecRec := l.insertionSort timeLE

/-- A concrete in-scope BUY execution at time `t`. -/
def demoBuy (t qty price : ℚ) : ExecRec :=
  { time := t
    side := Side.buy
    qty := qty
    price := price
    symbol := "TESTCE"
    exchange := "NFO"
    product := "NRML"
    exec_id := none }

/-- A concrete in-scope SELL execution at time `t`. -/
def demoSell (t qty : ℚ) : ExecRec :=
  { time := t
    side := Side.sell
    qty := qty
    price := 0
    symbol := "TESTCE"
    exchange := "NFO"
    product := "NRML"
    exec_id := none }

/-- Executions exhibiting FIFO over-drain followed by a later buy:
BUY 3, SELL 5 (over-drains), BUY 10. -/
def c3DemoExecs : List ExecRec := [demoBuy 1 3 100, demoSell 2 5, demoBuy 3 10 50]

/-- A concrete live SELL order of the external store. -/
def demoOrder (q px : ℚ) (oid : String) : Order :=
  { action := "SELL", quantity := q, price := px, orderid := oid, status := "open" }

/-- A tracked state as left by earlier cycles (session running since 0). -/
def trackedState : SymbolState :=
  { SymbolState.init "TESTCE" "NFO" with tracking := true, session_start := some 0 }

/-- A per-cycle input with no executions fetched and quantity `q` at time
`t`; a placement this cycle would succeed with order id `oid`. -/
def c1Cycle (q t : ℚ) (oid : String) : CycleIn :=
  { execs := [], qty := q, pos_avg := 100, now := t, resp := some (some oid) }

/-- The C1 trace: enter at quantity 10 (cycle defers inside the wait
window), place at quantity 10, then quantity rises to 15 with the SELL 10
still live. -/
def c1Trace : List CycleIn := [c1Cycle 10 0 "o1", c1Cycle 10 3 "o2", c1Cycle 15 6 "o3"]

/-- State after the first C1 cycle: tracking with a fresh session, still
armed (the cycle deferred inside the wait window). -/
def c1StateA : SymbolState :=
  { SymbolState.init "TESTCE" "NFO" with
    tracking := true, armed := true, session_id := 1, session_start := some 0 }

/-- The SELL 10 @ 100.25 placed in the second C1 cycle. -/
def c1Order2 : Order := demoOrder 10 (401 / 4) "o2"

/-- The SELL 15 @ 100.25 placed in the third C1 cycle. -/
def c1Order3 : Order := demoOrder 15 (401 / 4) "o3"

/-- State after the second C1 cycle: SELL 10 placed and owned. -/
def c1StateB : SymbolState :=
  { c1StateA with
    total_qty := 10, avg_price := 100, open_sell_id := some "o2",
    open_sell_px := some (401 / 4), open_sell_qty := some 10, armed := false }

/-- State inside the third C1 cycle after the quantity increase re-arms. -/
def c1StateC : SymbolState := { c1StateB with armed := true }

/-- State after the third C1 cycle: SELL 15 placed and owned, while the
SELL 10 was never cancelled. -/
def c1StateD : SymbolState :=
  { c1StateB with total_qty := 15, open_sell_id := some "o3", open_sell_qty := some 15 }

/-- A later cycle input at quantity 10 whose broker would raise. -/
def c4DemoCycle : CycleIn :=
  { execs := [], qty := 10, pos_avg := 100, now := 8, resp := none }

/-- A later cycle input at quantity 0. -/
def flatCycle : CycleIn :=
  { execs := [], qty := 0, pos_avg := 0, now := 20, resp := none }

/-- A concrete in-scope execution row carrying execution id `i`. -/
def demoExecId (i : ℕ) : ExecRec :=
  { time := 0
    side := Side.buy
    qty := 1
    price := 1
    symbol := "TESTCE"
    exchange := "NFO"
    product := "NRML"
    exec_id := some i }

/-! ### FIFO quantity accounting -/

theorem queueTotal_nil : queueTotal [] = 0 := rfl

theorem queueTotal_cons (p : ℚ × ℚ) (q : List (ℚ × ℚ)) :
    queueTotal (p :: q) = p.1 + queueTotal q := by
  simp [queueTotal]

theorem queueTotal_append (q1 q2 : List (ℚ × ℚ)) :
    queueTotal (q1 ++ q2) = queueTotal q1 + queueTotal q2 := by
  simp [queueTotal]

theorem queueTotal_nonneg (q : List (ℚ × ℚ)) (hq : LotsPos q) :
    0 ≤ queueTotal q := by
  induction q with
  | nil => simp [queueTotal]
  | cons p rest ih =>
    rw [queueTotal_cons]
    have h1 : 0 < p.1 := hq p (List.mem_cons_self p rest)
    have h2 : 0 ≤ queueTotal rest := ih (fun x hx => hq x (List.mem_cons_of_mem p hx))
    linarith

theorem sellConsume_lotsPos (q : List (ℚ × ℚ)) (s : ℚ) (hq : LotsPos q) :
    LotsPos (sellConsume s q) := by
  induction q generalizing s with
  | nil => simp [sellConsume, LotsPos]
  | cons hd rest ih =>
    obtain ⟨a, p⟩ := hd
    have ha : 0 < a := hq (a, p) (List.mem_cons_self _ _)
    have hrest : LotsPos rest := fun x hx => hq x (List.mem_cons_of_mem _ hx)
    rw [sellConsume]
    by_cases h0 : s ≤ 0
    · simpa [h0] using hq
    · by_cases h1 : a ≤ s
      · simpa [h0, h1] using ih (s - a) hrest
      · push_neg at h1
        simp only [h0, h1, if_false, not_le.mpr h1, if_neg (not_le.mpr h1)]
        intro x hx
        rcases List.mem_cons.mp hx with hx | hx
        · simp [hx]; linarith
        · exact hrest x hx

theorem sellConsume_total (q : List (ℚ × ℚ)) (s : ℚ) (hq : LotsPos q) (hs : 0 ≤ s) :
    queueTotal (sellConsume s q) = max (queueTotal q - s) 0 := by
  induction q generalizing s with
  | nil =>
    simp only [sellConsume, queueTotal_nil]
    rw [max_eq_right]; linarith
  | cons hd rest ih =>
    obtain ⟨a, p⟩ := hd
    have ha : 0 < a := hq (a, p) (List.mem_cons_self _ _)
    have hrest : LotsPos rest := fun x hx => hq x (List.mem_cons_of_mem _ hx)
    have htrest : 0 ≤ queueTotal rest := queueTotal_nonneg rest hrest
    rw [sellConsume]
    by_cases h0 : s ≤ 0
    · have hs0 : s = 0 := le_antisymm h0 hs
      rw [if_pos h0, hs0, max_eq_left]
      · ring_nf
      · rw [queueTotal_cons]; simp; linarith
    · push_neg at h0
      by_cases h1 : a ≤ s
      · rw [if_neg (not_le.mpr h0), if_pos h1, ih (s - a) hrest (by linarith),
          queueTotal_cons]
        congr 1
        ring
      · push_neg at h1
        rw [if_neg (not_le.mpr h0), if_neg (not_le.mpr h1), queueTotal_cons,
          queueTotal_cons]
        rw [max_eq_left (by simp; linarith)]
        ring

theorem fifoQueue_nil (q : List (ℚ × ℚ)) : fifoQueue q [] = q := rfl

theorem fifoQueue_cons (q : List (ℚ × ℚ)) (r : ExecRec) (l : List ExecRec) :
    fifoQueue q (r :: l) = fifoQueue (fifoStep q r) l := rfl

theorem fifoQueue_lotsPos (l : List ExecRec) (q : List (ℚ × ℚ)) (hq : LotsPos q)
    (hl : ∀ r ∈ l, 0 < r.qty) : LotsPos (fifoQueue q l) := by
  induction l generalizing q with
  | nil => exact hq
  | cons r rest ih =>
    rw [fifoQueue_cons]
    have hr : 0 < r.qty := hl r (List.mem_cons_self _ _)
    have hrest : ∀ x ∈ rest, 0 < x.qty := fun x hx => hl x (List.mem_cons_of_mem _ hx)
    refine ih (fifoStep q r) ?_ hrest
    cases hside : r.side with
    | buy =>
      simp only [fifoStep, hside]
      intro x hx
      rcases List.mem_append.mp hx with hx | hx
      · exact hq x hx
      · simp at hx; simp [hx, hr]
    | sell =>
      simp only [fifoStep, hside]
      exact sellConsume_lotsPos q r.qty hq

theorem fifoQueue_total_bounds (l : List ExecRec) (q : List (ℚ × ℚ))
    (hq : LotsPos q) (hl : ∀ r ∈ l, 0 < r.qty) :
    max 0 (queueTotal q + buyQtyTotal l - sellQtyTotal l) ≤ queueTotal (fifoQueue q l)
      ∧ queueTotal (fifoQueue q l) ≤ queueTotal q + buyQtyTotal l := by
  induction l generalizing q with
  | nil =>
    constructor
    · simp [fifoQueue_nil, buyQtyTotal, sellQtyTotal, queueTotal_nonneg q hq]
    · simp [fifoQueue_nil, buyQtyTotal]
  | cons r rest ih =>
    rw [fifoQueue_cons]
    have hr : 0 < r.qty := hl r (List.mem_cons_self _ _)
    have hrest : ∀ x ∈ rest, 0 < x.qty := fun x hx => hl x (List.mem_cons_of_mem _ hx)
    have htq : 0 ≤ queueTotal q := queueTotal_nonneg q hq
    cases hside : r.side with
    | buy =>
      have hb : buyQtyTotal (r :: rest) = r.qty + buyQtyTotal rest := by
        simp [buyQtyTotal, hside]
      have hs2 : sellQtyTotal (r :: rest) = sellQtyTotal rest := by
        simp [sellQtyTotal, hside]
      have hstep : fifoStep q r = q ++ [(r.qty, r.price)] := by
        simp [fifoStep, hside]
      have hq2 : LotsPos (q ++ [(r.qty, r.price)]) := by
        intro x hx
        rcases List.mem_append.mp hx with hx | hx
        · exact hq x hx
        · simp at hx; simp [hx, hr]
      have hib := ih (q ++ [(r.qty, r.price)]) hq2 hrest
      rw [queueTotal_append, queueTotal_cons, queueTotal_nil, add_zero] at hib
      rw [hb, hs2, hstep]
      constructor
      · have harg : queueTotal q + (r.qty + buyQtyTotal rest) - sellQtyTotal rest
            = queueTotal q + r.qty + buyQtyTotal rest - sellQtyTotal rest := by ring
        rw [harg]
        exact hib.1
      · have harg : queueTotal q + (r.qty + buyQtyTotal rest)
            = queueTotal q + r.qty + buyQtyTotal rest := by ring
        rw [harg]
        exact hib.2
    | sell =>
      have hb : buyQtyTotal (r :: rest) = buyQtyTotal rest := by
        simp [buyQtyTotal, hside]
      have hs2 : sellQtyTotal (r :: rest) = r.qty + sellQtyTotal rest := by
        simp [sellQtyTotal, hside]
      have hstep : fifoStep q r = sellConsume r.qty q := by
        simp [fifoStep, hside]
      have hq2 : LotsPos (sellConsume r.qty q) := sellConsume_lotsPos q r.qty hq
      have hib := ih (sellConsume r.qty q) hq2 hrest
      have htot : queueTotal (sellConsume r.qty q) = max (queueTotal q - r.qty) 0 :=
        sellConsume_total q r.qty hq (le_of_lt hr)
      rw [htot] at hib
      rw [hb, hs2, hstep]
      have hM : queueTotal q - r.qty ≤ max (queueTotal q - r.qty) 0 := le_max_left _ _
      have hM0 : max (queueTotal q - r.qty) 0 ≤ queueTotal q := by
        apply max_le <;> linarith
      constructor
      · refine le_trans ?_ hib.1
        apply max_le_max (le_refl 0)
        linarith
      · refine le_trans hib.2 ?_
        linarith

theorem fifoQueue_total_eq (l : List ExecRec) (q : List (ℚ × ℚ))
    (hq : LotsPos q) (hl : ∀ r ∈ l, 0 < r.qty)
    (hnd : noOverdrain (queueTotal q) l = true) :
    queueTotal (fifoQueue q l) = queueTotal q + buyQtyTotal l - sellQtyTotal l := by
  induction l generalizing q with
  | nil => simp [fifoQueue_nil, buyQtyTotal, sellQtyTotal]
  | cons r rest ih =>
    rw [fifoQueue_cons]
    have hr : 0 < r.qty := hl r (List.mem_cons_self _ _)
    have hrest : ∀ x ∈ rest, 0 < x.qty := fun x hx => hl x (List.mem_cons_of_mem _ hx)
    cases hside : r.side with
    | buy =>
      have hb : buyQtyTotal (r :: rest) = r.qty + buyQtyTotal rest := by
        simp [buyQtyTotal, hside]
      have hs2 : sellQtyTotal (r :: rest) = sellQtyTotal rest := by
        simp [sellQtyTotal, hside]
      have hstep : fifoStep q r = q ++ [(r.qty, r.price)] := by
        simp [fifoStep, hside]
      have hq2 : LotsPos (q ++ [(r.qty, r.price)]) := by
        intro x hx
        rcases List.mem_append.mp hx with hx | hx
        · exact hq x hx
        · simp at hx; simp [hx, hr]
      rw [noOverdrain, hside] at hnd
      have hnd2 : noOverdrain (queueTotal (q ++ [(r.qty, r.price)])) rest = true := by
        rw [queueTotal_append, queueTotal_cons, queueTotal_nil, add_zero]
        exact hnd
      have heq := ih (q ++ [(r.qty, r.price)]) hq2 hrest hnd2
      rw [queueTotal_append, queueTotal_cons, queueTotal_nil, add_zero] at heq
      rw [hb, hs2, hstep, heq]; ring
    | sell =>
      have hb : buyQtyTotal (r :: rest) = buyQtyTotal rest := by
        simp [buyQtyTotal, hside]
      have hs2 : sellQtyTotal (r :: rest) = r.qty + sellQtyTotal rest := by
        simp [sellQtyTotal, hside]
      have hstep : fifoStep q r = sellConsume r.qty q := by
        simp [fifoStep, hside]
      rw [noOverdrain, hside] at hnd
      simp only [Bool.and_eq_true, decide_eq_true_eq] at hnd
      obtain ⟨hle, hnd2⟩ := hnd
      have hq2 : LotsPos (sellConsume r.qty q) := sellConsume_lotsPos q r.qty hq
      have htot : queueTotal (sellConsume r.qty q) = queueTotal q - r.qty := by
        rw [sellConsume_total q r.qty hq (le_of_lt hr), max_eq_left (by linarith)]
      have heq := ih (sellConsume r.qty q) hq2 hrest (by rw [htot]; exact hnd2)
      rw [htot] at heq
      rw [hb, hs2, hstep, heq]; ring

theorem side_buy_ne_sell : (Side.buy = Side.sell) = False := by simp

theorem side_sell_ne_buy : (Side.sell = Side.buy) = False := by simp

theorem seedQueue_total (oq oa : ℚ) :
    queueTotal (if LEDGER_USE_SYNTHETIC_BOOTSTRAP = true ∧ oq > 0 ∧ oa > 0 then
      [(oq, oa)] else []) = seedQty oq oa := by
  unfold seedQty
  split <;> simp [queueTotal]

theorem seedQueue_lotsPos (oq oa : ℚ) :
    LotsPos (if LEDGER_USE_SYNTHETIC_BOOTSTRAP = true ∧ oq > 0 ∧ oa > 0 then
      [(oq, oa)] else []) := by
  split
  · rename_i h
    intro x hx
    simp at hx
    rw [hx]
    exact h.2.1
  · intro x hx
    simp at hx

theorem fifo_open_qty_eq (execs : List ExecRec) (exchange symbol : String)
    (oq oa : ℚ) :
    (fifo_ledger_avg execs exchange symbol oq oa).1
      = queueTotal (fifoQueue
          (if LEDGER_USE_SYNTHETIC_BOOTSTRAP = true ∧ oq > 0 ∧ oa > 0 then
            [(oq, oa)] else [])
          (execs.filter (execMatch exchange symbol))) := rfl

/-- C3 counterexample: with no synthetic lot, the sequence BUY 3, SELL 5,
BUY 10 leaves open quantity 10, while total BUY minus total SELL clamped
at zero is 8 — the claimed identity fails when a SELL over-drains the
queue and a later BUY follows. -/
theorem c3_overdrain_counterexample :
    (fifo_ledger_avg c3DemoExecs "NFO" "TESTCE" 0 0).1 = 10
    ∧ buyQtyTotal c3DemoExecs = 13
    ∧ sellQtyTotal c3DemoExecs = 5
    ∧ (fifo_ledger_avg c3DemoExecs "NFO" "TESTCE" 0 0).1
        ≠ max 0 (buyQtyTotal c3DemoExecs - sellQtyTotal c3DemoExecs) := by
  have h1 : (fifo_ledger_avg c3DemoExecs "NFO" "TESTCE" 0 0).1 = 10 := by
    norm_num [fifo_ledger_avg, c3DemoExecs, demoBuy, demoSell, execMatch,
      OPTION_PRODUCTS, fifoQueue, fifoStep, sellConsume, queueTotal,
      LEDGER_USE_SYNTHETIC_BOOTSTRAP]
  have h2 : buyQtyTotal c3DemoExecs = 13 := by
    norm_num [buyQtyTotal, c3DemoExecs, demoBuy, demoSell, side_buy_ne_sell,
      side_sell_ne_buy]
  have h3 : sellQtyTotal c3DemoExecs = 5 := by
    norm_num [sellQtyTotal, c3DemoExecs, demoBuy, demoSell, side_buy_ne_sell,
      side_sell_ne_buy]
  refine ⟨h1, h2, h3, ?_⟩
  rw [h1, h2, h3]
  rw [max_eq_right (by norm_num : (0 : ℚ) ≤ 13 - 5)]
  norm_num

/-- C3 (amended): for every sequence of BUY/SELL executions with positive
quantities, with or without a synthetic opening lot, the FIFO engine's open
quantity lies between (seed + total BUY - total SELL) clamped at zero and
the seeded-plus-bought total, with equality to the clamped difference
whenever no SELL over-drains the quantity then available (totals taken over
the instrument's in-scope executions, which are the ones the engine
processes). -/
theorem c3_fifo_open_qty (execs : List ExecRec) (exchange symbol : String)
    (oq oa : ℚ) (hpos : ∀ r ∈ execs, 0 < r.qty) :
    max 0 (seedQty oq oa + buyQtyTotal (execs.filter (execMatch exchange symbol))
        - sellQtyTotal (execs.filter (execMatch exchange symbol)))
      ≤ (fifo_ledger_avg execs exchange symbol oq oa).1
    ∧ (fifo_ledger_avg execs exchange symbol oq oa).1
        ≤ seedQty oq oa + buyQtyTotal (execs.filter (execMatch exchange symbol))
    ∧ (noOverdrain (seedQty oq oa) (execs.filter (execMatch exchange symbol)) = true →
        (fifo_ledger_avg execs exchange symbol oq oa).1
          = seedQty oq oa + buyQtyTotal (execs.filter (execMatch exchange symbol))
            - sellQtyTotal (execs.filter (execMatch exchange symbol))) := by
  have hl : ∀ r ∈ execs.filter (execMatch exchange symbol), 0 < r.qty :=
    fun r hr => hpos r (List.mem_of_mem_filter hr)
  have hq0 := seedQueue_lotsPos oq oa
  have ht0 := seedQueue_total oq oa
  rw [fifo_open_qty_eq]
  have hb := fifoQueue_total_bounds (execs.filter (execMatch exchange symbol)) _ hq0 hl
  rw [ht0] at hb
  refine ⟨hb.1, hb.2, ?_⟩
  · intro hnd
    have := fifoQueue_total_eq (execs.filter (execMatch exchange symbol)) _ hq0 hl
      (by rw [ht0]; exact hnd)
    rwa [ht0] at this

/-- Witness for C3 at a concrete input: seed (0,0), BUY 10 then SELL 4,
positive quantities hold, and the conclusion holds with open quantity 6. -/
theorem c3_fifo_open_qty_witness :
    max 0 (seedQty 0 0 + buyQtyTotal ([demoBuy 1 10 100, demoSell 2 4].filter (execMatch "NFO" "TESTCE"))
        - sellQtyTotal ([demoBuy 1 10 100, demoSell 2 4].filter (execMatch "NFO" "TESTCE")))
      ≤ (fifo_ledger_avg [demoBuy 1 10 100, demoSell 2 4] "NFO" "TESTCE" 0 0).1
    ∧ (fifo_ledger_avg [demoBuy 1 10 100, demoSell 2 4] "NFO" "TESTCE" 0 0).1
        ≤ seedQty 0 0 + buyQtyTotal ([demoBuy 1 10 100, demoSell 2 4].filter (execMatch "NFO" "TESTCE"))
    ∧ (noOverdrain (seedQty 0 0) ([demoBuy 1 10 100, demoSell 2 4].filter (execMatch "NFO" "TESTCE")) = true →
        (fifo_ledger_avg [demoBuy 1 10 100, demoSell 2 4] "NFO" "TESTCE" 0 0).1
          = seedQty 0 0 + buyQtyTotal ([demoBuy 1 10 100, demoSell 2 4].filter (execMatch "NFO" "TESTCE"))
            - sellQtyTotal ([demoBuy 1 10 100, demoSell 2 4].filter (execMatch "NFO" "TESTCE"))) :=
  c3_fifo_open_qty [demoBuy 1 10 100, demoSell 2 4] "NFO" "TESTCE" 0 0 (by
    intro r hr
    simp only [List.mem_cons, List.not_mem_nil, or_false] at hr
    rcases hr with rfl | rfl
    · norm_num [demoBuy]
    · norm_num [demoSell])

/-! ### C7: the inline session mini-ledger refines the FIFO ledger engine -/

/-- C7: for every execution list, instrument and session start, the
supervisor's inline session averaging (FIFO over the instrument's
executions with `time ≥ session_start`, never seeded) returns exactly the
open quantity and average of `fifo_ledger_avg` applied to the same
session-filtered executions with opening quantity and price zero. -/
theorem c7_session_mini_eq_fifo (execs : List ExecRec) (exch sym : String) (t0 : ℚ) :
    session_mini_ledger execs exch sym t0
      = fifo_ledger_avg
          (execs.filter (fun r => execMatch exch sym r && decide (t0 ≤ r.time)))
          exch sym 0 0 := by
  unfold session_mini_ledger fifo_ledger_avg
  have hq0 : (if LEDGER_USE_SYNTHETIC_BOOTSTRAP = true ∧ (0 : ℚ) > 0 ∧ (0 : ℚ) > 0 then
      [((0 : ℚ), (0 : ℚ))] else []) = ([] : List (ℚ × ℚ)) := by norm_num
  rw [hq0]
  have hfilter :
      (execs.filter (fun r => execMatch exch sym r && decide (t0 ≤ r.time))).filter
          (execMatch exch sym)
        = execs.filter (fun r => execMatch exch sym r && decide (t0 ≤ r.time)) := by
    rw [List.filter_filter]
    apply List.filter_congr
    intro a _
    cases h : execMatch exch sym a <;> simp [h]
  rw [hfilter]

/-! ### C8: target-price rounding -/

theorem pyRound_intCast (k : ℤ) : pyRound (k : ℚ) = k := by
  unfold pyRound
  rw [Int.floor_intCast]
  norm_num

/-- C8 counterexample: for chosen average 11/40 (= 0.275) the price plus
margin is 0.525, exactly half a tick of 0.05 above 0.50; Python's `round`
(ties to even) gives target 0.50, while half-up rounding would give 0.55.
So the engine's rounding is not half-up. -/
theorem c8_half_up_counterexample :
    round_to_tick (11 / 40 + AUTO_SELL_MARGIN_OPT) TICK_SIZE_OPT = 1 / 2
    ∧ round_to_tick_halfup (11 / 40 + AUTO_SELL_MARGIN_OPT) TICK_SIZE_OPT = 11 / 20
    ∧ round_to_tick (11 / 40 + AUTO_SELL_MARGIN_OPT) TICK_SIZE_OPT
        ≠ round_to_tick_halfup (11 / 40 + AUTO_SELL_MARGIN_OPT) TICK_SIZE_OPT := by
  have h1 : round_to_tick (11 / 40 + AUTO_SELL_MARGIN_OPT) TICK_SIZE_OPT = 1 / 2 := by
    norm_num [round_to_tick, pyRound2, pyRound, AUTO_SELL_MARGIN_OPT, TICK_SIZE_OPT]
  have h2 : round_to_tick_halfup (11 / 40 + AUTO_SELL_MARGIN_OPT) TICK_SIZE_OPT
      = 11 / 20 := by
    norm_num [round_to_tick_halfup, roundHalfUp, AUTO_SELL_MARGIN_OPT, TICK_SIZE_OPT]
  refine ⟨h1, h2, ?_⟩
  rw [h1, h2]
  norm_num

/-- C8 (amended): the target price is the chosen average plus the fixed
margin rounded to the nearest tick and then to two decimals with Python's
round-half-to-even (banker's) rounding, not half-up; and rounding an
already-tick-aligned price (any integer multiple of the 0.05 tick) returns
the same price. -/
theorem c8_round_half_even_idempotent :
    (∀ k : ℤ, round_to_tick ((k : ℚ) / 20) TICK_SIZE_OPT = (k : ℚ) / 20)
    ∧ (∀ (qty avg_price : ℚ) (oid : Option String), 0 < qty →
        (ensure_one_sell qty avg_price (some oid)).1.2.1
          = some (round_to_tick (avg_price + AUTO_SELL_MARGIN_OPT) TICK_SIZE_OPT)) := by
  constructor
  · intro k
    unfold round_to_tick TICK_SIZE_OPT
    rw [show ((k : ℚ) / 20) / (1 / 20) = ((k : ℚ)) from by field_simp]
    rw [pyRound_intCast]
    unfold pyRound2
    rw [show ((k : ℚ)) * (1 / 20) * 100 = ((5 * k : ℤ) : ℚ) from by push_cast; ring]
    rw [pyRound_intCast]
    push_cast
    ring
  · intro qty avg_price oid hq
    unfold ensure_one_sell
    rw [if_neg (not_le.mpr hq)]

/-- Witness for C8 at a concrete input: quantity 10 is positive and a
successful placement stores the half-even rounded target. -/
theorem c8_round_half_even_idempotent_witness :
    (ensure_one_sell 10 100 (some (some "w8"))).1.2.1
      = some (round_to_tick (100 + AUTO_SELL_MARGIN_OPT) TICK_SIZE_OPT) :=
  c8_round_half_even_idempotent.2 10 100 (some "w8") (by norm_num)

/-! ### C9: permutation sensitivity of the sorted FIFO pipeline -/

theorem sorted_time_nodup_perm_eq :
    ∀ (l1 l2 : List ExecRec), l1.Perm l2 →
      l1.Sorted timeLE → l2.Sorted timeLE →
      (l1.map ExecRec.time).Nodup → l1 = l2 := by
  intro l1
  induction l1 with
  | nil =>
    intro l2 hp _ _ _
    exact (List.Perm.eq_nil hp.symm).symm
  | cons a t1 ih =>
    intro l2 hp hs1 hs2 hnd
    cases l2 with
    | nil => exact absurd (List.Perm.eq_nil hp) (by simp)
    | cons b t2 =>
      have hs1' := (List.sorted_cons.mp hs1)
      have hs2' := (List.sorted_cons.mp hs2)
      have hnd' := by
        rw [List.map_cons] at hnd
        exact List.nodup_cons.mp hnd
      have hab : a = b := by
        by_cases h : a = b
        · exact h
        · exfalso
          have ha2 : a ∈ b :: t2 := hp.subset (List.mem_cons_self a t1)
          have hb1 : b ∈ a :: t1 := hp.symm.subset (List.mem_cons_self b t2)
          have hat2 : a ∈ t2 := by
            rcases List.mem_cons.mp ha2 with h1 | h1
            · exact absurd h1 h
            · exact h1
          have hbt1 : b ∈ t1 := by
            rcases List.mem_cons.mp hb1 with h1 | h1
            · exact absurd h1.symm h
            · exact h1
          have h1 : a.time ≤ b.time := hs1'.1 b hbt1
          have h2 : b.time ≤ a.time := hs2'.1 a hat2
          have heq : b.time = a.time := le_antisymm h2 h1
          exact hnd'.1 (heq ▸ List.mem_map_of_mem ExecRec.time hbt1)
      subst hab
      have htail := ih t2 (hp.cons_inv) hs1'.2 hs2'.2 hnd'.2
      rw [htail]

/-- C9 counterexample: an input list and a permutation of it, all three
records carrying the identical timestamp 0, on which the sorted FIFO
pipeline returns open average 20 versus 10 — the stable time sort preserves
input order among equal timestamps, so the result is not
permutation-invariant there. -/
theorem c9_equal_time_counterexample :
    List.Perm [demoBuy 0 1 10, demoBuy 0 1 20, demoSell 0 1]
      [demoBuy 0 1 20, demoBuy 0 1 10, demoSell 0 1]
    ∧ List.map ExecRec.time [demoBuy 0 1 10, demoBuy 0 1 20, demoSell 0 1] = [0, 0, 0]
    ∧ (fifo_ledger_avg (sortExecs [demoBuy 0 1 10, demoBuy 0 1 20, demoSell 0 1])
        "NFO" "TESTCE" 0 0).2 = some 20
    ∧ (fifo_ledger_avg (sortExecs [demoBuy 0 1 20, demoBuy 0 1 10, demoSell 0 1])
        "NFO" "TESTCE" 0 0).2 = some 10
    ∧ (some (20 : ℚ)) ≠ (some (10 : ℚ)) := by
  refine ⟨List.Perm.swap (demoBuy 0 1 20) (demoBuy 0 1 10) [demoSell 0 1], ?_, ?_, ?_, ?_⟩
  · simp [demoBuy, demoSell]
  · norm_num [sortExecs, List.insertionSort, List.orderedInsert, timeLE,
      fifo_ledger_avg, demoBuy, demoSell, execMatch, OPTION_PRODUCTS,
      LEDGER_USE_SYNTHETIC_BOOTSTRAP, fifoQueue, fifoStep, sellConsume,
      queueTotal, weighted_avg]
  · norm_num [sortExecs, List.insertionSort, List.orderedInsert, timeLE,
      fifo_ledger_avg, demoBuy, demoSell, execMatch, OPTION_PRODUCTS,
      LEDGER_USE_SYNTHETIC_BOOTSTRAP, fifoQueue, fifoStep, sellConsume,
      queueTotal, weighted_avg]
  · norm_num

/-- C9 (amended): after the fetcher's ascending time sort, the FIFO result
is invariant under any permutation of executions whose timestamps are
pairwise distinct; with identical timestamps the stable sort preserves the
input order, on which the result can depend, and the result is sensitive to
true chronological order — making the older of two equal-priced-quantity
buys cheaper changes the open average after a sell (oldest lot consumed
first). -/
theorem c9_sorted_perm_invariance :
    (∀ (l1 l2 : List ExecRec) (exch sym : String) (oq oa : ℚ),
      l1.Perm l2 → (l1.map ExecRec.time).Nodup →
      fifo_ledger_avg (sortExecs l1) exch sym oq oa
        = fifo_ledger_avg (sortExecs l2) exch sym oq oa)
    ∧ (fifo_ledger_avg (sortExecs [demoBuy 1 1 10, demoBuy 2 1 20, demoSell 3 1])
          "NFO" "TESTCE" 0 0).2
        ≠ (fifo_ledger_avg (sortExecs [demoBuy 1 1 20, demoBuy 2 1 10, demoSell 3 1])
          "NFO" "TESTCE" 0 0).2 := by
  constructor
  · intro l1 l2 exch sym oq oa hp hnd
    have hperm : (sortExecs l1).Perm (sortExecs l2) :=
      ((List.perm_insertionSort timeLE l1).trans hp).trans
        (List.perm_insertionSort timeLE l2).symm
    have hsorted1 : (sortExecs l1).Sorted timeLE := List.sorted_insertionSort timeLE l1
    have hsorted2 : (sortExecs l2).Sorted timeLE := List.sorted_insertionSort timeLE l2
    have hnodup1 : ((sortExecs l1).map ExecRec.time).Nodup :=
      (((List.perm_insertionSort timeLE l1).map ExecRec.time).nodup_iff).mpr hnd
    have hs : sortExecs l1 = sortExecs l2 :=
      sorted_time_nodup_perm_eq (sortExecs l1) (sortExecs l2) hperm hsorted1 hsorted2 hnodup1
    rw [hs]
  · have h1 : (fifo_ledger_avg (sortExecs [demoBuy 1 1 10, demoBuy 2 1 20, demoSell 3 1])
        "NFO" "TESTCE" 0 0).2 = some 20 := by
      norm_num [sortExecs, List.insertionSort, List.orderedInsert, timeLE,
        fifo_ledger_avg, demoBuy, demoSell, execMatch, OPTION_PRODUCTS,
        LEDGER_USE_SYNTHETIC_BOOTSTRAP, fifoQueue, fifoStep, sellConsume,
        queueTotal, weighted_avg]
    have h2 : (fifo_ledger_avg (sortExecs [demoBuy 1 1 20, demoBuy 2 1 10, demoSell 3 1])
        "NFO" "TESTCE" 0 0).2 = some 10 := by
      norm_num [sortExecs, List.insertionSort, List.orderedInsert, timeLE,
        fifo_ledger_avg, demoBuy, demoSell, execMatch, OPTION_PRODUCTS,
        LEDGER_USE_SYNTHETIC_BOOTSTRAP, fifoQueue, fifoStep, sellConsume,
        queueTotal, weighted_avg]
    rw [h1, h2]
    norm_num

/-- Witness for C9 at a concrete input: two permuted lists with pairwise
distinct timestamps give the same sorted-FIFO result. -/
theorem c9_sorted_perm_invariance_witness :
    fifo_ledger_avg (sortExecs [demoBuy 1 2 100, demoSell 2 1]) "NFO" "TESTCE" 0 0
      = fifo_ledger_avg (sortExecs [demoSell 2 1, demoBuy 1 2 100]) "NFO" "TESTCE" 0 0 :=
  c9_sorted_perm_invariance.1 [demoBuy 1 2 100, demoSell 2 1]
    [demoSell 2 1, demoBuy 1 2 100] "NFO" "TESTCE" 0 0
    (List.Perm.swap (demoSell 2 1) (demoBuy 1 2 100) [])
    (by simp [demoBuy, demoSell])

/-! ### C2: deterministic coverage-ratio selection -/

/-- C2: given a positive net quantity, and the two facts the engines
guarantee at the call site (a session average implies a positive session
open quantity, and sufficient ledger coverage implies a ledger average
exists), the supervisor's selection equals the spec's six-branch policy —
the choice is a deterministic function of the listed inputs; in particular
session coverage 3 of 10 with ledger coverage 10 of 10 selects Ledger, not
Session-Partial. -/
theorem c2_coverage_selection
    (savg : Option ℚ) (sbq qty lq : ℚ) (lavg : Option ℚ) (pos_avg elapsed : ℚ)
    (hq : 0 < qty)
    (hsess : savg.isSome = true → 0 < sbq)
    (hledg : lq ≥ qty * (95 / 100) → lavg.isSome = true) :
    choose_avg savg sbq qty lq lavg pos_avg true elapsed
      = choose_avg_spec savg sbq qty lq lavg pos_avg elapsed
    ∧ choose_avg (some 100) 3 10 10 (some 97) 95 true 0
        = some (CostSource.ledger, 97) := by
  constructor
  · cases savg with
    | none =>
      simp only [choose_avg, choose_avg_spec, Option.isSome_none,
        Bool.false_eq_true, false_and, if_false, USE_EXECUTIONS,
        eq_self_iff_true, true_and]
      by_cases hl : lq ≥ qty * (95 / 100)
      · rw [if_pos ⟨hledg hl, hl⟩, if_pos hl]
      · rw [if_neg (fun h => hl h.2), if_neg hl]
    | some sa =>
      have hsb : 0 < sbq := hsess (by simp)
      simp only [choose_avg, choose_avg_spec, Option.isSome_some]
      rw [if_pos ⟨trivial, hsb⟩, if_pos hq]
      by_cases hcov : sbq / qty ≥ 95 / 100
      · rw [if_pos hcov, if_pos hcov]
        simp
      · rw [if_neg hcov, if_neg hcov]
        by_cases hl : lq ≥ qty * (95 / 100)
        · rw [if_pos ⟨hledg hl, hl⟩, if_pos hl]
        · rw [if_neg (fun h => hl h.2), if_neg hl]
          simp
  · norm_num [choose_avg]

/-- Witness for C2 at the scenario's inputs: session average 100 covering
3 of 10, ledger average 97 covering 10 of 10, elapsed 0. -/
theorem c2_coverage_selection_witness :
    choose_avg (some 100) 3 10 10 (some 97) 95 true 0
      = choose_avg_spec (some 100) 3 10 10 (some 97) 95 0
    ∧ choose_avg (some 100) 3 10 10 (some 97) 95 true 0
        = some (CostSource.ledger, 97) :=
  c2_coverage_selection (some 100) 3 10 10 (some 97) 95 0 (by norm_num)
    (fun _ => by norm_num) (fun _ => by simp)

/-! ### C6: execution-id deduplication -/

theorem dedupRun_no_reemit (rows : List ExecRec) :
    ∀ (c : Finset ℕ) (i : ℕ), i ∈ c → (dedupRun c rows).2.2 = 0 →
      i ∈ (dedupRun c rows).1
        ∧ ∀ r ∈ (dedupRun c rows).2.1, r.exec_id ≠ some i := by
  induction rows with
  | nil =>
    intro c i hi _
    exact ⟨hi, by simp [dedupRun]⟩
  | cons r rest ih =>
    intro c i hi h0
    rw [dedupRun] at h0 ⊢
    cases hid : r.exec_id with
    | none =>
      simp only [hid] at h0 ⊢
      have := ih c i hi h0
      refine ⟨this.1, ?_⟩
      intro x hx
      rcases List.mem_cons.mp hx with hx | hx
      · rw [hx, hid]; simp
      · exact this.2 x hx
    | some j =>
      simp only [hid] at h0 ⊢
      by_cases hj : j ∈ c
      · rw [if_pos hj] at h0 ⊢
        exact ih c i hi h0
      · rw [if_neg hj] at h0 ⊢
        by_cases hcard : MAX_EXEC_ID_CACHE < (insert j c).card
        · rw [if_pos hcard] at h0
          simp at h0
        · rw [if_neg hcard] at h0 ⊢
          have hic : i ∈ insert j c := Finset.mem_insert_of_mem hi
          have := ih (insert j c) i hic h0
          refine ⟨this.1, ?_⟩
          intro x hx
          rcases List.mem_cons.mp hx with hx | hx
          · rw [hx, hid]
            intro hcontra
            have : j = i := by simpa using hcontra
            exact hj (this ▸ hi)
          · exact this.2 x hx

/-- C6: an execution id already in the dedup cache is never re-emitted by
the dedup stage across any later rows as long as no capacity clear occurs;
and after a clear (triggered when the cache exceeds `MAX_EXEC_ID_CACHE`
entries upon insertion) a cached id is processed again — exhibited with a
full cache of ids 0..9999 where one fresh id triggers the clear and id 0 is
then re-emitted. -/
theorem c6_dedup_no_reprocess :
    (∀ (c : Finset ℕ) (rows : List ExecRec) (i : ℕ), i ∈ c →
      (dedupRun c rows).2.2 = 0 →
      ∀ r ∈ (dedupRun c rows).2.1, r.exec_id ≠ some i)
    ∧ 0 ∈ Finset.range MAX_EXEC_ID_CACHE
    ∧ (dedupRun (Finset.range MAX_EXEC_ID_CACHE)
          [demoExecId 10000, demoExecId 0]).2.2 = 1
    ∧ (dedupRun (Finset.range MAX_EXEC_ID_CACHE)
          [demoExecId 10000, demoExecId 0]).2.1.map ExecRec.exec_id
        = [some 10000, some 0] := by
  have heval : dedupRun (Finset.range MAX_EXEC_ID_CACHE)
      [demoExecId 10000, demoExecId 0]
      = ({0}, [demoExecId 10000, demoExecId 0], 1) := by
    have h1 : (10000 : ℕ) ∉ Finset.range MAX_EXEC_ID_CACHE := by
      simp [MAX_EXEC_ID_CACHE]
    have h2 : MAX_EXEC_ID_CACHE < (insert 10000 (Finset.range MAX_EXEC_ID_CACHE)).card := by
      rw [Finset.card_insert_of_not_mem h1, Finset.card_range]
      norm_num [MAX_EXEC_ID_CACHE]
    have h3 : (0 : ℕ) ∉ (∅ : Finset ℕ) := Finset.not_mem_empty 0
    have h4 : ¬ (MAX_EXEC_ID_CACHE < (insert 0 (∅ : Finset ℕ)).card) := by
      simp [MAX_EXEC_ID_CACHE]
    have hida : (demoExecId 10000).exec_id = some 10000 := rfl
    have hidb : (demoExecId 0).exec_id = some 0 := rfl
    rw [dedupRun, hida]
    simp only
    rw [if_neg h1, if_pos h2]
    rw [dedupRun, hidb]
    simp only
    rw [if_neg h3, if_neg h4]
    rw [dedupRun]
    rfl
  refine ⟨?_, by simp [MAX_EXEC_ID_CACHE], by rw [heval], by rw [heval]; simp [demoExecId]⟩
  intro c rows i hi h0
  exact (dedupRun_no_reemit rows c i hi h0).2

/-- Witness for C6 at a concrete input: with cache containing id 5 and no
clear occurring, the row carrying id 7 that the stage emits does not carry
id 5. -/
theorem c6_dedup_no_reprocess_witness :
    (demoExecId 7).exec_id ≠ some 5 :=
  c6_dedup_no_reprocess.1 {5} [demoExecId 5, demoExecId 7] 5 (by simp)
    (by rw [dedupRun]; simp [demoExecId, dedupRun, MAX_EXEC_ID_CACHE])
    (demoExecId 7)
    (by rw [dedupRun]; simp [demoExecId, dedupRun, MAX_EXEC_ID_CACHE])

/-! ### C10: ensure_one_sell error handling -/

/-- C10: a non-positive quantity returns (none, none, none) without issuing
any broker call; a positive quantity whose `placeorder` raises also returns
(none, none, none) — the triple the caller stores into its owned-order
fields — after a single failed placement attempt. -/
theorem c10_ensure_one_sell (qty avg_price : ℚ) (resp : Option (Option String)) :
    (qty ≤ 0 → ensure_one_sell qty avg_price resp = ((none, none, none), []))
    ∧ (0 < qty → ensure_one_sell qty avg_price none
        = ((none, none, none),
           [Action.placeRaise qty
             (round_to_tick (avg_price + AUTO_SELL_MARGIN_OPT) TICK_SIZE_OPT)])) := by
  constructor
  · intro h
    unfold ensure_one_sell
    rw [if_pos h]
  · intro h
    unfold ensure_one_sell
    rw [if_neg (not_le.mpr h)]

/-- Witness for C10 at concrete inputs: quantity -1 (with a broker that
would succeed) and quantity 5 with a raising broker. -/
theorem c10_ensure_one_sell_witness :
    ensure_one_sell (-1) 100 (some (some "w10")) = ((none, none, none), [])
    ∧ ensure_one_sell 5 100 none
        = ((none, none, none),
           [Action.placeRaise 5
             (round_to_tick (100 + AUTO_SELL_MARGIN_OPT) TICK_SIZE_OPT)]) :=
  ⟨(c10_ensure_one_sell (-1) 100 (some (some "w10"))).1 (by norm_num),
   (c10_ensure_one_sell 5 100 none).2 (by norm_num)⟩

/-! ### C5: flat transition resets everything and stops acting -/

theorem supervisor_step_flat_acts (execs : List ExecRec) (exch sym : String)
    (qty pos_avg prev now : ℚ) (st : SymbolState) (orders : List Order)
    (resp : Option (Option String)) (hq : qty ≤ 0) :
    ∀ a ∈ (supervisor_step execs exch sym qty pos_avg prev now st orders resp).acts,
      a.isCancel = true := by
  intro a ha
  unfold supervisor_step at ha
  rw [if_pos hq] at ha
  cases htr : st.tracking with
  | false =>
    rw [htr] at ha
    simp at ha
  | true =>
    rw [htr] at ha
    simp only [if_pos rfl] at ha
    simp only [cancel_existing_sells] at ha
    rcases List.mem_map.mp ha with ⟨o, _, hoa⟩
    rw [← hoa]
    rfl

theorem runCycles_flat_acts (exch sym : String) (cycles : List CycleIn) :
    ∀ (st : SymbolState) (orders : List Order) (prev : ℚ),
      (∀ c ∈ cycles, c.qty ≤ 0) →
      ∀ a ∈ (runCycles exch sym cycles st orders prev).acts, a.isCancel = true := by
  induction cycles with
  | nil =>
    intro st orders prev _ a ha
    simp [runCycles] at ha
  | cons c rest ih =>
    intro st orders prev hcy a ha
    rw [runCycles] at ha
    simp only [List.mem_append] at ha
    rcases ha with ha | ha
    · exact supervisor_step_flat_acts c.execs exch sym c.qty c.pos_avg prev c.now
        st orders c.resp (hcy c (List.mem_cons_self c rest)) a ha
    · exact ih _ _ _ (fun d hd => hcy d (List.mem_cons_of_mem c hd)) a ha

/-- C5: when a tracked instrument's net quantity reaches zero or below, the
cycle cancels every live SELL for the instrument (no live SELL remains in
the store and every broker call is a cancellation), clears the session
state and the override flag, stops tracking with totals reset to zero and
no recorded owned order; and on all later cycles with non-positive
quantity the engine issues only cancellations — no placement. -/
theorem c5_flat_reset (execs : List ExecRec) (exch sym : String)
    (qty pos_avg prev now : ℚ) (st : SymbolState) (orders : List Order)
    (resp : Option (Option String))
    (htr : st.tracking = true) (hq : qty ≤ 0) :
    (supervisor_step execs exch sym qty pos_avg prev now st orders resp).st.total_qty = 0
    ∧ (supervisor_step execs exch sym qty pos_avg prev now st orders resp).st.avg_price = 0
    ∧ (supervisor_step execs exch sym qty pos_avg prev now st orders resp).st.tracking = false
    ∧ (supervisor_step execs exch sym qty pos_avg prev now st orders resp).st.manual_override = false
    ∧ (supervisor_step execs exch sym qty pos_avg prev now st orders resp).st.armed = false
    ∧ (supervisor_step execs exch sym qty pos_avg prev now st orders resp).st.session_start = none
    ∧ (supervisor_step execs exch sym qty pos_avg prev now st orders resp).st.session_buy_qty = 0
    ∧ (supervisor_step execs exch sym qty pos_avg prev now st orders resp).st.session_buy_value = 0
    ∧ (supervisor_step execs exch sym qty pos_avg prev now st orders resp).st.open_sell_id = none
    ∧ (supervisor_step execs exch sym qty pos_avg prev now st orders resp).st.open_sell_px = none
    ∧ (supervisor_step execs exch sym qty pos_avg prev now st orders resp).st.open_sell_qty = none
    ∧ (∀ o ∈ (supervisor_step execs exch sym qty pos_avg prev now st orders resp).orders,
        is_live_sell o = false)
    ∧ (∀ a ∈ (supervisor_step execs exch sym qty pos_avg prev now st orders resp).acts,
        a.isCancel = true)
    ∧ (∀ cycles : List CycleIn, (∀ c ∈ cycles, c.qty ≤ 0) →
        ∀ a ∈ (runCycles exch sym cycles
            (supervisor_step execs exch sym qty pos_avg prev now st orders resp).st
            (supervisor_step execs exch sym qty pos_avg prev now st orders resp).orders
            (supervisor_step execs exch sym qty pos_avg prev now st orders resp).last_qty).acts,
          a.isCancel = true) := by
  have hstep : supervisor_step execs exch sym qty pos_avg prev now st orders resp
      = { st := { st with
            total_qty := 0
            avg_price := 0
            open_sell_id := none
            open_sell_px := none
            open_sell_qty := none
            manual_override := false
            tracking := false
            session_start := none
            session_buy_qty := 0
            session_buy_value := 0
            armed := false }
          orders := (cancel_existing_sells orders).1
          acts := (cancel_existing_sells orders).2
          last_qty := 0 } := by
    unfold supervisor_step
    rw [if_pos hq, htr]
    rw [if_pos rfl]
  refine ⟨by rw [hstep], by rw [hstep], by rw [hstep], by rw [hstep], by rw [hstep],
    by rw [hstep], by rw [hstep], by rw [hstep], by rw [hstep], by rw [hstep],
    by rw [hstep], ?_, ?_, ?_⟩
  · rw [hstep]
    intro o ho
    simp only [cancel_existing_sells] at ho
    have := (List.mem_filter.mp ho).2
    simpa using this
  · rw [hstep]
    intro a ha
    simp only [cancel_existing_sells] at ha
    rcases List.mem_map.mp ha with ⟨o, _, hoa⟩
    rw [← hoa]
    rfl
  · intro cycles hcy a ha
    exact runCycles_flat_acts exch sym cycles _ _ _ hcy a ha

/-- Witness for C5 at a concrete input: a tracked state with one live SELL
in the store, quantity 0 this cycle, one further flat cycle. -/
theorem c5_flat_reset_witness :
    (supervisor_step [] "NFO" "TESTCE" 0 100 10 9 trackedState
      [demoOrder 10 100 "w5"] none).st.tracking = false
    ∧ (∀ o ∈ (supervisor_step [] "NFO" "TESTCE" 0 100 10 9 trackedState
        [demoOrder 10 100 "w5"] none).orders, is_live_sell o = false)
    ∧ (∀ a ∈ (runCycles "NFO" "TESTCE" [flatCycle]
        (supervisor_step [] "NFO" "TESTCE" 0 100 10 9 trackedState
          [demoOrder 10 100 "w5"] none).st
        (supervisor_step [] "NFO" "TESTCE" 0 100 10 9 trackedState
          [demoOrder 10 100 "w5"] none).orders
        (supervisor_step [] "NFO" "TESTCE" 0 100 10 9 trackedState
          [demoOrder 10 100 "w5"] none).last_qty).acts, a.isCancel = true) := by
  have h := c5_flat_reset [] "NFO" "TESTCE" 0 100 10 9 trackedState
    [demoOrder 10 100 "w5"] none (by rfl) (by norm_num)
  refine ⟨h.2.2.1, h.2.2.2.2.2.2.2.2.2.2.2.1, ?_⟩
  exact h.2.2.2.2.2.2.2.2.2.2.2.2.2 [flatCycle]
    (by intro c hc; simp only [List.mem_singleton] at hc; rw [hc]; norm_num [flatCycle])

/-! ### C4: manual override is detected and the order left untouched -/

theorem supervisor_step_found_no_touch (execs : List ExecRec) (exch sym : String)
    (qty pos_avg prev now : ℚ) (st : SymbolState) (orders : List Order)
    (resp : Option (Option String)) (hq : 0 < qty)
    (hfound : (orders.find? (fun x =>
        x.action == "SELL" && decide (x.quantity = qty))).isSome = true) :
    (supervisor_step execs exch sym qty pos_avg prev now st orders resp).orders = orders
    ∧ (supervisor_step execs exch sym qty pos_avg prev now st orders resp).acts = []
    ∧ (supervisor_step execs exch sym qty pos_avg prev now st orders resp).last_qty = qty := by
  unfold supervisor_step
  rw [if_neg (not_le.mpr hq)]
  rcases h2 : decide_choice execs exch sym qty pos_avg prev now st with ⟨st3, choice⟩
  dsimp only
  cases choice with
  | none => exact ⟨rfl, rfl, rfl⟩
  | some sc =>
    rcases sc with ⟨src, chosen⟩
    dsimp only
    split
    · exact ⟨rfl, rfl, rfl⟩
    · rename_i hf
      rw [hf] at hfound
      simp at hfound

theorem runCycles_found_no_touch (exch sym : String) (qty : ℚ) (cycles : List CycleIn) :
    ∀ (st : SymbolState) (orders : List Order) (prev : ℚ),
      0 < qty →
      (orders.find? (fun x => x.action == "SELL" && decide (x.quantity = qty))).isSome = true →
      (∀ c ∈ cycles, c.qty = qty) →
      (runCycles exch sym cycles st orders prev).orders = orders
      ∧ (runCycles exch sym cycles st orders prev).acts = [] := by
  induction cycles with
  | nil =>
    intro st orders prev _ _ _
    exact ⟨rfl, rfl⟩
  | cons c rest ih =>
    intro st orders prev hq hfound hcy
    have hcq : c.qty = qty := hcy c (List.mem_cons_self c rest)
    rw [runCycles]
    dsimp only
    rw [hcq]
    have hstep := supervisor_step_found_no_touch c.execs exch sym qty c.pos_avg prev
      c.now st orders c.resp hq hfound
    rw [hstep.1, hstep.2.1, hstep.2.2]
    have ihres := ih (supervisor_step c.execs exch sym qty c.pos_avg prev c.now st
        orders c.resp).st orders qty hq hfound
      (fun d hd => hcy d (List.mem_cons_of_mem c hd))
    exact ⟨ihres.1, by rw [List.nil_append, ihres.2]⟩

/-- C4: with positive unchanged quantity, once a cycle finds a live SELL at
exactly that quantity whose price is at least epsilon (1e-6) away from the
computed target, the engine sets `manual_override`, disarms, and in that
cycle and every later same-quantity cycle issues no broker call and leaves
the order store unchanged — the order is neither cancelled nor replaced
until the quantity changes. -/
theorem c4_manual_override (execs : List ExecRec) (exch sym : String)
    (qty pos_avg prev now : ℚ) (st st3 : SymbolState) (src : CostSource)
    (chosen : ℚ) (orders : List Order) (resp : Option (Option String)) (o : Order)
    (hq : 0 < qty)
    (hdc : decide_choice execs exch sym qty pos_avg prev now st = (st3, some (src, chosen)))
    (hfind : orders.find? (fun x => x.action == "SELL" && decide (x.quantity = qty)) = some o)
    (hdiff : 1 / 1000000
      ≤ |o.price - round_to_tick (chosen + AUTO_SELL_MARGIN_OPT) TICK_SIZE_OPT|) :
    (supervisor_step execs exch sym qty pos_avg prev now st orders resp).st.manual_override = true
    ∧ (supervisor_step execs exch sym qty pos_avg prev now st orders resp).st.armed = false
    ∧ (supervisor_step execs exch sym qty pos_avg prev now st orders resp).orders = orders
    ∧ (supervisor_step execs exch sym qty pos_avg prev now st orders resp).acts = []
    ∧ ∀ cycles : List CycleIn, (∀ c ∈ cycles, c.qty = qty) →
        (runCycles exch sym cycles
          (supervisor_step execs exch sym qty pos_avg prev now st orders resp).st
          (supervisor_step execs exch sym qty pos_avg prev now st orders resp).orders
          (supervisor_step execs exch sym qty pos_avg prev now st orders resp).last_qty).orders
            = orders
        ∧ (runCycles exch sym cycles
            (supervisor_step execs exch sym qty pos_avg prev now st orders resp).st
            (supervisor_step execs exch sym qty pos_avg prev now st orders resp).orders
            (supervisor_step execs exch sym qty pos_avg prev now st orders resp).last_qty).acts
            = [] := by
  have hne : ¬ (|o.price - round_to_tick (chosen + AUTO_SELL_MARGIN_OPT) TICK_SIZE_OPT|
      < 1 / 1000000) := not_lt.mpr hdiff
  have hstep : supervisor_step execs exch sym qty pos_avg prev now st orders resp
      = { st := { st3 with
            total_qty := qty
            avg_price := chosen
            open_sell_id := some o.orderid
            open_sell_px := some o.price
            open_sell_qty := some qty
            manual_override := true
            armed := false }
          orders := orders
          acts := []
          last_qty := qty } := by
    unfold supervisor_step
    rw [if_neg (not_le.mpr hq), hdc]
    dsimp only
    rw [hfind]
    dsimp only
    rw [decide_eq_false hne]
    rfl
  refine ⟨by rw [hstep], by rw [hstep], by rw [hstep], by rw [hstep], ?_⟩
  intro cycles hcy
  rw [hstep]
  exact runCycles_found_no_touch exch sym qty cycles _ orders qty hq
    (by rw [hfind]; rfl) hcy

theorem round_to_tick_100_margin :
    round_to_tick (100 + AUTO_SELL_MARGIN_OPT) TICK_SIZE_OPT = 401 / 4 := by
  norm_num [round_to_tick, pyRound2, pyRound, AUTO_SELL_MARGIN_OPT, TICK_SIZE_OPT]

/-- Witness for C4 at a concrete input: tracked state, live SELL 10 @ 999
against target 100.25 (source Position-UNSAFE), one later cycle at the same
quantity. -/
theorem c4_manual_override_witness :
    (supervisor_step [] "NFO" "TESTCE" 10 100 10 5 trackedState
        [demoOrder 10 999 "w4"] (some (some "zz"))).st.manual_override = true
    ∧ (supervisor_step [] "NFO" "TESTCE" 10 100 10 5 trackedState
        [demoOrder 10 999 "w4"] (some (some "zz"))).st.armed = false
    ∧ (supervisor_step [] "NFO" "TESTCE" 10 100 10 5 trackedState
        [demoOrder 10 999 "w4"] (some (some "zz"))).orders = [demoOrder 10 999 "w4"]
    ∧ (supervisor_step [] "NFO" "TESTCE" 10 100 10 5 trackedState
        [demoOrder 10 999 "w4"] (some (some "zz"))).acts = []
    ∧ (runCycles "NFO" "TESTCE" [c4DemoCycle]
        (supervisor_step [] "NFO" "TESTCE" 10 100 10 5 trackedState
          [demoOrder 10 999 "w4"] (some (some "zz"))).st
        (supervisor_step [] "NFO" "TESTCE" 10 100 10 5 trackedState
          [demoOrder 10 999 "w4"] (some (some "zz"))).orders
        (supervisor_step [] "NFO" "TESTCE" 10 100 10 5 trackedState
          [demoOrder 10 999 "w4"] (some (some "zz"))).last_qty).orders
      = [demoOrder 10 999 "w4"] := by
  have hdc : decide_choice [] "NFO" "TESTCE" 10 100 10 5 trackedState
      = (trackedState, some (CostSource.positionUnsafe, 100)) := by
    norm_num [decide_choice, fifo_ledger_avg, session_mini_ledger, choose_avg,
      USE_EXECUTIONS, DEFER_ON_START_SEC, LEDGER_USE_SYNTHETIC_BOOTSTRAP,
      fifoQueue, queueTotal, weighted_avg, trackedState, SymbolState.init, execMatch]
  have hfind : [demoOrder 10 999 "w4"].find?
      (fun x => x.action == "SELL" && decide (x.quantity = (10 : ℚ)))
      = some (demoOrder 10 999 "w4") := by
    norm_num [List.find?, demoOrder]
  have hdiff : (1 : ℚ) / 1000000
      ≤ |(demoOrder 10 999 "w4").price
          - round_to_tick ((100 : ℚ) + AUTO_SELL_MARGIN_OPT) TICK_SIZE_OPT| := by
    rw [round_to_tick_100_margin]
    have hp : (demoOrder 10 999 "w4").price = 999 := rfl
    rw [hp]
    rw [show |(999 : ℚ) - 401 / 4| = 3595 / 4 from by rw [abs_of_pos] <;> norm_num]
    norm_num
  have h := c4_manual_override [] "NFO" "TESTCE" 10 100 10 5 trackedState trackedState
    CostSource.positionUnsafe 100 [demoOrder 10 999 "w4"] (some (some "zz"))
    (demoOrder 10 999 "w4") (by norm_num) hdc hfind hdiff
  refine ⟨h.1, h.2.1, h.2.2.1, h.2.2.2.1, ?_⟩
  refine (h.2.2.2.2 [c4DemoCycle] ?_).1
  intro c hc
  simp only [List.mem_singleton] at hc
  rw [hc]
  rfl

/-! ### C1: the at-most-one-live-SELL invariant fails on a quantity increase -/

theorem c1_cycle1_eval :
    supervisor_step [] "NFO" "TESTCE" 10 100 0 0 (SymbolState.init "TESTCE" "NFO") []
        (some (some "o1"))
      = { st := c1StateA, orders := [], acts := [], last_qty := 10 } := by
  have hdc : decide_choice [] "NFO" "TESTCE" 10 100 0 0 (SymbolState.init "TESTCE" "NFO")
      = (c1StateA, none) := by
    norm_num [decide_choice, fifo_ledger_avg, session_mini_ledger, choose_avg,
      USE_EXECUTIONS, DEFER_ON_START_SEC, LEDGER_USE_SYNTHETIC_BOOTSTRAP,
      fifoQueue, queueTotal, weighted_avg, SymbolState.init, execMatch, c1StateA]
  norm_num [supervisor_step, hdc]

theorem c1_cycle2_eval :
    supervisor_step [] "NFO" "TESTCE" 10 100 10 3 c1StateA [] (some (some "o2"))
      = { st := c1StateB, orders := [c1Order2],
          acts := [Action.place (some "o2") 10 (401 / 4)], last_qty := 10 } := by
  have hdc : decide_choice [] "NFO" "TESTCE" 10 100 10 3 c1StateA
      = (c1StateA, some (CostSource.positionUnsafe, 100)) := by
    norm_num [decide_choice, fifo_ledger_avg, session_mini_ledger, choose_avg,
      USE_EXECUTIONS, DEFER_ON_START_SEC, LEDGER_USE_SYNTHETIC_BOOTSTRAP,
      fifoQueue, queueTotal, weighted_avg, SymbolState.init, execMatch, c1StateA]
  unfold supervisor_step
  rw [if_neg (by norm_num : ¬ (10 : ℚ) ≤ 0), hdc]
  dsimp only [List.find?]
  rw [if_pos (show c1StateA.armed = true from rfl)]
  norm_num [ensure_one_sell, placed_orders, round_to_tick_100_margin,
    c1StateB, c1Order2, demoOrder]

theorem c1_cycle3_eval :
    supervisor_step [] "NFO" "TESTCE" 15 100 10 6 c1StateB [c1Order2] (some (some "o3"))
      = { st := c1StateD, orders := [c1Order2, c1Order3],
          acts := [Action.place (some "o3") 15 (401 / 4)], last_qty := 15 } := by
  have hdc : decide_choice [] "NFO" "TESTCE" 15 100 10 6 c1StateB
      = (c1StateC, some (CostSource.positionUnsafe, 100)) := by
    norm_num [decide_choice, fifo_ledger_avg, session_mini_ledger, choose_avg,
      USE_EXECUTIONS, DEFER_ON_START_SEC, LEDGER_USE_SYNTHETIC_BOOTSTRAP,
      fifoQueue, queueTotal, weighted_avg, SymbolState.init, execMatch,
      c1StateA, c1StateB, c1StateC]
  have hfind : [c1Order2].find?
      (fun x => x.action == "SELL" && decide (x.quantity = (15 : ℚ))) = none := by
    norm_num [List.find?, c1Order2, demoOrder]
  unfold supervisor_step
  rw [if_neg (by norm_num : ¬ (15 : ℚ) ≤ 0), hdc]
  dsimp only
  rw [hfind]
  rw [if_pos (show c1StateC.armed = true from rfl)]
  norm_num [ensure_one_sell, placed_orders, round_to_tick_100_margin,
    c1StateC, c1StateD, c1Order3, demoOrder]
  exact ⟨rfl, rfl, rfl⟩

/-- C1 (code bug exhibit): starting flat with an empty execution feed and
position average 100, the cycles quantity 10 (deferred), quantity 10
(places SELL 10 @ 100.25), then quantity 15 (re-armed by the increase)
leave TWO live SELL orders in the accurately-reflected store — the armed
placement path never cancels the stale SELL 10, violating the
at-most-one-live-protective-order invariant. -/
theorem c1_two_live_sells :
    ((runCycles "NFO" "TESTCE" c1Trace (SymbolState.init "TESTCE" "NFO") [] 0).orders.filter
        (fun o => o.action == "SELL")).length = 2
    ∧ (runCycles "NFO" "TESTCE" c1Trace (SymbolState.init "TESTCE" "NFO") [] 0).orders
        = [c1Order2, c1Order3] := by
  have hrun : (runCycles "NFO" "TESTCE" c1Trace (SymbolState.init "TESTCE" "NFO") [] 0).orders
      = [c1Order2, c1Order3] := by
    simp only [c1Trace, c1Cycle, runCycles, c1_cycle1_eval, c1_cycle2_eval, c1_cycle3_eval]
  refine ⟨?_, hrun⟩
  rw [hrun]
  norm_num [List.filter, c1Order2, c1Order3, demoOrder]

end AutoSeller
